import Mathlib

/-!
Verification of the button-to-serial firmware (`main.c`).

The development shallowly embeds the firmware's two core components:

* the circular-buffer serial transmitter (`uart_tx_buffer` / `uart_tx_head` /
  `uart_tx_tail` / `uart_transmitting`, operations `uart_send_char`,
  `uart_start_if_idle` and the `USART_TX_vect` completion interrupt), and
* the three pin-change edge detectors (`PCINT0_vect`, `PCINT1_vect`,
  `PCINT2_vect`) together with the pin masks and command bytes, and
* the heartbeat logic of the main loop.

Bytes are modelled as `Nat` (the values that occur are all below 256).
The transmitter state carries two ghost histories: `output`, the bytes
handed to the hardware data register (`UDR0`), and `enqueued`, the bytes
successfully enqueued, plus a ghost `inFlight` flag recording whether the
hardware channel currently holds a byte (the `USART_TX_vect` interrupt
fires exactly when an in-flight byte completes).
-/

/-- Source constant `UART_BUFFER_SIZE` (32). -/
def UART_BUFFER_SIZE : Nat := 32

/-- Source constant `CMD_UP`, the byte 'U'. -/
def CMD_UP : Nat := 'U'.toNat

/-- Source constant `CMD_DOWN`, the byte 'D'. -/
def CMD_DOWN : Nat := 'D'.toNat

/-- Source constant `CMD_RIGHT`, the byte 'R'. -/
def CMD_RIGHT : Nat := 'R'.toNat

/-- Source constant `CMD_LEFT`, the byte 'L'. -/
def CMD_LEFT : Nat := 'L'.toNat

/-- Source constant `CMD_ACTION_A`, the byte 'A'. -/
def CMD_ACTION_A : Nat := 'A'.toNat

/-- Source constant `CMD_ACTION_B`, the byte 'B'. -/
def CMD_ACTION_B : Nat := 'B'.toNat

/-- Source constant `CMD_HEARTBEAT`, the byte 'H'. -/
def CMD_HEARTBEAT : Nat := 'H'.toNat

/-- The newline byte `'\n'` sent after every command byte. -/
def NL : Nat := 10

/-- Source mask `BTN_UP`, `1 << PC3`; PC3 is bit 3. -/
def BTN_UP : Nat := 1 <<< 3

/-- Source mask `BTN_DOWN`, `1 << PB3`; PB3 is bit 3. -/
def BTN_DOWN : Nat := 1 <<< 3

/-- Source mask `BTN_RIGHT`, `1 << PB4`; PB4 is bit 4. -/
def BTN_RIGHT : Nat := 1 <<< 4

/-- Source mask `BTN_LEFT`, `1 << PC2`; PC2 is bit 2. -/
def BTN_LEFT : Nat := 1 <<< 2

/-- Source mask `BTN_ACTION_A`, `1 << PD5`; PD5 is bit 5. -/
def BTN_ACTION_A : Nat := 1 <<< 5

/-- Source mask `BTN_ACTION_B`, `1 << PD2`; PD2 is bit 2. -/
def BTN_ACTION_B : Nat := 1 <<< 2

/-- The mutable state of the serial transmitter: the circular buffer
(`uart_tx_buffer`, modelled as a function from slot index to byte), the
`uart_tx_head` and `uart_tx_tail` indices, the `uart_transmitting` flag,
and three ghost fields: `output` (all bytes written to `UDR0`, in order),
`enqueued` (all bytes successfully enqueued, in order) and `inFlight`
(whether the hardware channel currently holds a byte). -/
structure Tx where
  buf : Nat → Nat
  head : Nat
  tail : Nat
  transmitting : Bool
  inFlight : Bool
  output : List Nat
  enqueued : List Nat

/-- Pointwise update of the modelled buffer array: `buf[i] = d`. -/
def setBuf (f : Nat → Nat) (i d : Nat) : Nat → Nat :=
  fun j => if j = i then d else f j

/-- The initial state: `uart_tx_head = 0`, `uart_tx_tail = 0`,
`uart_transmitting = false`, buffer contents unspecified (zero), no byte
in flight, empty histories. -/
def txInit : Tx :=
  { buf := fun _ => 0, head := 0, tail := 0, transmitting := false,
    inFlight := false, output := [], enqueued := [] }

/-- The queue-full condition: `next_head == uart_tx_tail` for
`next_head = (uart_tx_head + 1) % UART_BUFFER_SIZE`; `uart_send_char`
busy-waits exactly while this holds. -/
def txFull (s : Tx) : Prop :=
  (s.head + 1) % UART_BUFFER_SIZE = s.tail

instance (s : Tx) : Decidable (txFull s) := by
  unfold txFull; infer_instance

/-- The body of `uart_start_if_idle` when it fires (not transmitting and
the queue is non-empty): set `uart_transmitting = true`, write
`uart_tx_buffer[uart_tx_tail]` to `UDR0` (recorded in `output`, and the
channel now holds a byte) and advance `uart_tx_tail` modulo the buffer
size. -/
def txStartFire (s : Tx) : Tx :=
  { s with transmitting := true,
           inFlight := true,
           output := s.output ++ [s.buf s.tail],
           tail := (s.tail + 1) % UART_BUFFER_SIZE }

/-- Source function `uart_start_if_idle`, assembled from its guard and
its body: fire only when idle and non-empty. -/
def uart_start_if_idle (s : Tx) : Tx :=
  if s.transmitting = false ∧ s.head ≠ s.tail then txStartFire s else s

/-- The buffer-write half of `uart_send_char(data)`: write `data` at
`uart_tx_head`, advance `uart_tx_head` modulo the buffer size, and record
the byte as enqueued. -/
def txWrite (data : Nat) (s : Tx) : Tx :=
  { s with buf := setBuf s.buf s.head data,
           head := (s.head + 1) % UART_BUFFER_SIZE,
           enqueued := s.enqueued ++ [data] }

/-- Source function `uart_send_char(data)` after its busy-wait has exited
(the step relation below only invokes it on a non-full queue): write
`data` at `uart_tx_head`, advance `uart_tx_head` modulo the buffer size,
then call `uart_start_if_idle`. -/
def uart_send_char (data : Nat) (s : Tx) : Tx :=
  uart_start_if_idle (txWrite data s)

/-- The branch of `ISR(USART_TX_vect)` taken on transmit-complete with a
non-empty queue: write `uart_tx_buffer[uart_tx_tail]` to `UDR0` (a new
byte is in flight) and advance `uart_tx_tail`. -/
def txIsrCont (s : Tx) : Tx :=
  { s with output := s.output ++ [s.buf s.tail],
           inFlight := true,
           tail := (s.tail + 1) % UART_BUFFER_SIZE }

/-- The branch of `ISR(USART_TX_vect)` taken on an empty queue: clear
`uart_transmitting`; no byte is in flight any more. -/
def txIsrIdle (s : Tx) : Tx :=
  { s with transmitting := false, inFlight := false }

/-- Source interrupt `ISR(USART_TX_vect)`, assembled from its two
branches. -/
def usart_tx_isr (s : Tx) : Tx :=
  if s.head ≠ s.tail then txIsrCont s else txIsrIdle s

/-- One atomic step of the transmitter system: either some producer
context completes an `uart_send_char` call (possible only when the queue
is not full — otherwise the call busy-waits and does not complete), or
the hardware signals transmit-complete (possible only when a byte is
actually in flight). -/
inductive TxStep : Tx → Tx → Prop
  | enq (d : Nat) (s : Tx) (h : ¬ txFull s) : TxStep s (uart_send_char d s)
  | isr (s : Tx) (h : s.inFlight = true) : TxStep s (usart_tx_isr s)

/-- States reachable from the initial transmitter state by enqueue and
completion-interrupt steps. -/
def TxReachable (s : Tx) : Prop :=
  Relation.ReflTransGen TxStep txInit s

/-- Number of bytes currently stored in the circular buffer awaiting
hand-off: the circular distance from `tail` to `head`. -/
def pendingLen (s : Tx) : Nat :=
  (s.head + UART_BUFFER_SIZE - s.tail) % UART_BUFFER_SIZE

/-- The bytes currently stored in the circular buffer awaiting hand-off,
in queue (FIFO) order: slots `tail, tail+1, …, head-1` modulo the buffer
size. -/
def pendingList (s : Tx) : List Nat :=
  (List.range (pendingLen s)).map (fun j => s.buf ((s.tail + j) % UART_BUFFER_SIZE))

/-- The transmitter invariant: indices are in range, the `transmitting`
flag tracks exactly whether a byte is in flight, and the bytes handed to
the hardware followed by the bytes still queued are exactly the bytes
enqueued, in order. -/
def TxInv (s : Tx) : Prop :=
  s.head < UART_BUFFER_SIZE ∧ s.tail < UART_BUFFER_SIZE ∧
  s.transmitting = s.inFlight ∧
  s.output ++ pendingList s = s.enqueued

/-- The busy-wait exit condition of `uart_send_char`: the call can
complete (stop blocking) exactly when the queue is not full. -/
def enqEnabled (s : Tx) : Prop := ¬ txFull s

/-- A state whose channel is mid-transmission of an earlier byte with an
otherwise empty queue: with no completion events, nothing ever drains. -/
def txBusyInit : Tx :=
  { txInit with transmitting := true, inFlight := true }

/-- Iterated enqueue of byte 65, modelling a producer sending a string
one byte at a time. -/
def enqN : Nat → Tx → Tx
  | 0, s => s
  | n + 1, s => enqN n (uart_send_char 65 s)

-- --- Edge detectors ---

/-- Source interrupt `ISR(PCINT0_vect)` (group B, pins PB3 = DOWN and PB4 = RIGHT): given
the previous snapshot `last_portb` and the current raw value of `PINB`,
emit the command/newline pair for every monitored falling edge and return
the new snapshot together with the emitted bytes in program order. -/
def PCINT0_vect (last_portb current : Nat) : Nat × List Nat :=
  let changed := current ^^^ last_portb
  let outDown :=
    if changed &&& BTN_DOWN ≠ 0 ∧ current &&& BTN_DOWN = 0 then
      [CMD_DOWN, NL] else []
  let outRight :=
    if changed &&& BTN_RIGHT ≠ 0 ∧ current &&& BTN_RIGHT = 0 then
      [CMD_RIGHT, NL] else []
  (current, outDown ++ outRight)

/-- Source interrupt `ISR(PCINT1_vect)` (group C, pins PC3 = UP and PC2 = LEFT; the source
checks UP first): given the previous snapshot `last_portc` and the
current raw value of `PINC`, emit the pairs for the monitored falling
edges in program order and return the new snapshot. -/
def PCINT1_vect (last_portc current : Nat) : Nat × List Nat :=
  let changed := current ^^^ last_portc
  let outUp :=
    if changed &&& BTN_UP ≠ 0 ∧ current &&& BTN_UP = 0 then
      [CMD_UP, NL] else []
  let outLeft :=
    if changed &&& BTN_LEFT ≠ 0 ∧ current &&& BTN_LEFT = 0 then
      [CMD_LEFT, NL] else []
  (current, outUp ++ outLeft)

/-- Source interrupt `ISR(PCINT2_vect)` (group D, pins PD5 = ACTION_A and PD2 = ACTION_B;
the source checks ACTION_A first): given the previous snapshot
`last_portd` and the current raw value of `PIND`, emit the pairs for the
monitored falling edges in program order and return the new snapshot. -/
def PCINT2_vect (last_portd current : Nat) : Nat × List Nat :=
  let changed := current ^^^ last_portd
  let outA :=
    if changed &&& BTN_ACTION_A ≠ 0 ∧ current &&& BTN_ACTION_A = 0 then
      [CMD_ACTION_A, NL] else []
  let outB :=
    if changed &&& BTN_ACTION_B ≠ 0 ∧ current &&& BTN_ACTION_B = 0 then
      [CMD_ACTION_B, NL] else []
  (current, outA ++ outB)

/-- The claims' falling-edge condition on pin `p`: bit `p` is set in
`current XOR previous` (the pin changed) and clear in `current` (it is
now low). -/
def fallingEdge (prev current p : Nat) : Prop :=
  (current ^^^ prev).testBit p = true ∧ current.testBit p = false

instance (prev current p : Nat) : Decidable (fallingEdge prev current p) := by
  unfold fallingEdge; infer_instance

-- --- Main loop heartbeat ---

/-- One iteration of the `while (1)` loop in `main`, heartbeat part only:
increment the 16-bit `heartbeat_counter`; if it reached 1000, enqueue
`CMD_HEARTBEAT` and `'\n'` and reset the counter to 0. Returns the new
counter value and the bytes emitted this iteration. -/
def loopIter (counter : Nat) : Nat × List Nat :=
  let c := (counter + 1) % 65536
  if c ≥ 1000 then (0, [CMD_HEARTBEAT, NL]) else (c, [])

/-- Run `n` main-loop iterations from a counter value, accumulating the
emitted bytes. -/
def runLoop : Nat → Nat × List Nat → Nat × List Nat
  | 0, st => st
  | n + 1, (c, out) =>
      let st := loopIter c
      runLoop n (st.1, out ++ st.2)

-- --- Bitmask lemmas relating the source's mask tests to `Nat.testBit` ---

lemma and_shift_ne_zero_iff (n p : Nat) :
    n &&& (1 <<< p) ≠ 0 ↔ n.testBit p = true := by
  rw [Nat.shiftLeft_eq, one_mul, Nat.and_two_pow]
  cases h : n.testBit p <;> simp [h]

lemma and_shift_eq_zero_iff (n p : Nat) :
    n &&& (1 <<< p) = 0 ↔ n.testBit p = false := by
  rw [Nat.shiftLeft_eq, one_mul, Nat.and_two_pow]
  cases h : n.testBit p <;> simp [h]

lemma mask_cond_iff (prev cur p : Nat) :
    ((cur ^^^ prev) &&& (1 <<< p) ≠ 0 ∧ cur &&& (1 <<< p) = 0) ↔
      fallingEdge prev cur p := by
  unfold fallingEdge
  rw [and_shift_ne_zero_iff, and_shift_eq_zero_iff]

-- --- Normal forms for the three pin-change handlers ---

lemma PCINT0_vect_eq (prev cur : Nat) :
    PCINT0_vect prev cur =
      (cur,
        (if fallingEdge prev cur 3 then [CMD_DOWN, NL] else []) ++
        (if fallingEdge prev cur 4 then [CMD_RIGHT, NL] else [])) := by
  simp only [PCINT0_vect, BTN_DOWN, BTN_RIGHT, mask_cond_iff]

lemma PCINT1_vect_eq (prev cur : Nat) :
    PCINT1_vect prev cur =
      (cur,
        (if fallingEdge prev cur 3 then [CMD_UP, NL] else []) ++
        (if fallingEdge prev cur 2 then [CMD_LEFT, NL] else [])) := by
  simp only [PCINT1_vect, BTN_UP, BTN_LEFT, mask_cond_iff]

lemma PCINT2_vect_eq (prev cur : Nat) :
    PCINT2_vect prev cur =
      (cur,
        (if fallingEdge prev cur 5 then [CMD_ACTION_A, NL] else []) ++
        (if fallingEdge prev cur 2 then [CMD_ACTION_B, NL] else [])) := by
  simp only [PCINT2_vect, BTN_ACTION_A, BTN_ACTION_B, mask_cond_iff]

/-- C1: each group-evaluation emits exactly one (command, newline) pair
per monitored pin if and only if that pin shows a falling edge (bit set
in `cur XOR prev`, clear in `cur`); rising edges and changes on
non-monitored bits produce zero emissions.  Stated as: the emitted byte
list is exactly the concatenation of the per-pin pairs guarded by the
falling-edge condition, and the per-command occurrence counts are 1 for a
falling edge and 0 otherwise, for all three groups. -/
theorem edge_detector_emits_iff_falling (prev cur : Nat) :
    ((PCINT0_vect prev cur).2 =
        (if fallingEdge prev cur 3 then [CMD_DOWN, NL] else []) ++
        (if fallingEdge prev cur 4 then [CMD_RIGHT, NL] else []))
    ∧ ((PCINT0_vect prev cur).2.count CMD_DOWN =
        if fallingEdge prev cur 3 then 1 else 0)
    ∧ ((PCINT0_vect prev cur).2.count CMD_RIGHT =
        if fallingEdge prev cur 4 then 1 else 0)
    ∧ ((PCINT1_vect prev cur).2 =
        (if fallingEdge prev cur 3 then [CMD_UP, NL] else []) ++
        (if fallingEdge prev cur 2 then [CMD_LEFT, NL] else []))
    ∧ ((PCINT1_vect prev cur).2.count CMD_UP =
        if fallingEdge prev cur 3 then 1 else 0)
    ∧ ((PCINT1_vect prev cur).2.count CMD_LEFT =
        if fallingEdge prev cur 2 then 1 else 0)
    ∧ ((PCINT2_vect prev cur).2 =
        (if fallingEdge prev cur 5 then [CMD_ACTION_A, NL] else []) ++
        (if fallingEdge prev cur 2 then [CMD_ACTION_B, NL] else []))
    ∧ ((PCINT2_vect prev cur).2.count CMD_ACTION_A =
        if fallingEdge prev cur 5 then 1 else 0)
    ∧ ((PCINT2_vect prev cur).2.count CMD_ACTION_B =
        if fallingEdge prev cur 2 then 1 else 0) := by
  rw [PCINT0_vect_eq, PCINT1_vect_eq, PCINT2_vect_eq]
  refine ⟨rfl, ?_, ?_, rfl, ?_, ?_, rfl, ?_, ?_⟩ <;>
    · by_cases h1 : fallingEdge prev cur 3 <;>
      by_cases h2 : fallingEdge prev cur 4 <;>
      by_cases h3 : fallingEdge prev cur 2 <;>
      by_cases h4 : fallingEdge prev cur 5 <;>
      simp [h1, h2, h3, h4] <;> decide

/-- C5: the pin-to-command mapping — group B bit 3 emits `CMD_DOWN`
('D'), group B bit 4 emits `CMD_RIGHT` ('R'), group C bit 2 emits
`CMD_LEFT` ('L'), group C bit 3 emits `CMD_UP` ('U'), group D bit 2
emits `CMD_ACTION_B` ('B'), group D bit 5 emits `CMD_ACTION_A` ('A');
every falling edge of a table pin makes its command byte appear exactly
once in that group's emission, and a group emits nothing unless one of
its table pins shows a falling edge (so no pin outside the table ever
causes an emission). -/
theorem pin_command_mapping (prev cur : Nat) :
    (CMD_DOWN = 'D'.toNat ∧ CMD_RIGHT = 'R'.toNat ∧ CMD_LEFT = 'L'.toNat ∧
      CMD_UP = 'U'.toNat ∧ CMD_ACTION_B = 'B'.toNat ∧ CMD_ACTION_A = 'A'.toNat)
    ∧ ((PCINT0_vect prev cur).2.count CMD_DOWN =
        if fallingEdge prev cur 3 then 1 else 0)
    ∧ ((PCINT0_vect prev cur).2.count CMD_RIGHT =
        if fallingEdge prev cur 4 then 1 else 0)
    ∧ ((PCINT1_vect prev cur).2.count CMD_LEFT =
        if fallingEdge prev cur 2 then 1 else 0)
    ∧ ((PCINT1_vect prev cur).2.count CMD_UP =
        if fallingEdge prev cur 3 then 1 else 0)
    ∧ ((PCINT2_vect prev cur).2.count CMD_ACTION_B =
        if fallingEdge prev cur 2 then 1 else 0)
    ∧ ((PCINT2_vect prev cur).2.count CMD_ACTION_A =
        if fallingEdge prev cur 5 then 1 else 0)
    ∧ ((PCINT0_vect prev cur).2 = [] ↔
        ¬ fallingEdge prev cur 3 ∧ ¬ fallingEdge prev cur 4)
    ∧ ((PCINT1_vect prev cur).2 = [] ↔
        ¬ fallingEdge prev cur 2 ∧ ¬ fallingEdge prev cur 3)
    ∧ ((PCINT2_vect prev cur).2 = [] ↔
        ¬ fallingEdge prev cur 2 ∧ ¬ fallingEdge prev cur 5) := by
  rw [PCINT0_vect_eq, PCINT1_vect_eq, PCINT2_vect_eq]
  refine ⟨by decide, ?_, ?_, ?_, ?_, ?_, ?_, ?_, ?_, ?_⟩ <;>
    · by_cases h1 : fallingEdge prev cur 3 <;>
      by_cases h2 : fallingEdge prev cur 4 <;>
      by_cases h3 : fallingEdge prev cur 2 <;>
      by_cases h4 : fallingEdge prev cur 5 <;>
      simp [h1, h2, h3, h4] <;> decide

/-- C9: every group-evaluation stores the current raw value as the new
previous-snapshot unconditionally; and in the concrete scenario where
the group-B snapshot is `0b00011000` and pin 3 goes low (current value
`0b00010000`), the handler emits `('D', '\n')` and the new snapshot is
`0b00010000`. -/
theorem snapshot_stored_unconditionally :
    (∀ prev cur : Nat,
      (PCINT0_vect prev cur).1 = cur ∧
      (PCINT1_vect prev cur).1 = cur ∧
      (PCINT2_vect prev cur).1 = cur)
    ∧ PCINT0_vect 24 16 = (16, [CMD_DOWN, NL]) := by
  refine ⟨fun prev cur => ⟨rfl, rfl, rfl⟩, by decide⟩

/-- C8 counterexample: the claim asserts that simultaneous falling edges
within one group are emitted lower-numbered pin first — for group C,
LEFT (bit 2) before UP (bit 3), and for group D, ACTION_B (bit 2) before
ACTION_A (bit 5).  With previous snapshot 12 (bits 2 and 3 high) and
current value 0, `PCINT1_vect` emits the UP pair first, and with
previous snapshot 36 (bits 2 and 5 high) and current value 0,
`PCINT2_vect` emits the ACTION_A pair first, refuting the claimed
order. -/
theorem simultaneous_order_counterexample :
    (PCINT1_vect 12 0).2 = [CMD_UP, NL, CMD_LEFT, NL] ∧
    (PCINT1_vect 12 0).2 ≠ [CMD_LEFT, NL, CMD_UP, NL] ∧
    (PCINT2_vect 36 0).2 = [CMD_ACTION_A, NL, CMD_ACTION_B, NL] ∧
    (PCINT2_vect 36 0).2 ≠ [CMD_ACTION_B, NL, CMD_ACTION_A, NL] := by
  decide

/-- C8 amended: when one group-evaluation detects falling edges on both
monitored pins, both pairs are emitted in the fixed hard-coded program
order: group B emits DOWN (bit 3) then RIGHT (bit 4); group C emits UP
(bit 3) then LEFT (bit 2); group D emits ACTION_A (bit 5) then ACTION_B
(bit 2). -/
theorem simultaneous_edges_fixed_order (prev cur : Nat) :
    (fallingEdge prev cur 3 → fallingEdge prev cur 4 →
      (PCINT0_vect prev cur).2 = [CMD_DOWN, NL, CMD_RIGHT, NL])
    ∧ (fallingEdge prev cur 3 → fallingEdge prev cur 2 →
      (PCINT1_vect prev cur).2 = [CMD_UP, NL, CMD_LEFT, NL])
    ∧ (fallingEdge prev cur 5 → fallingEdge prev cur 2 →
      (PCINT2_vect prev cur).2 = [CMD_ACTION_A, NL, CMD_ACTION_B, NL]) := by
  rw [PCINT0_vect_eq, PCINT1_vect_eq, PCINT2_vect_eq]
  refine ⟨fun hA hB => ?_, fun hA hB => ?_, fun hA hB => ?_⟩ <;>
    simp [hA, hB]

/-- Witness for the amended C8 theorem: with every bit high in the
previous snapshot and every bit low now, each group shows falling edges
on both its pins and emits the two pairs in the stated order. -/
theorem simultaneous_edges_fixed_order_witness :
    (PCINT0_vect 255 0).2 = [CMD_DOWN, NL, CMD_RIGHT, NL] ∧
    (PCINT1_vect 255 0).2 = [CMD_UP, NL, CMD_LEFT, NL] ∧
    (PCINT2_vect 255 0).2 = [CMD_ACTION_A, NL, CMD_ACTION_B, NL] :=
  ⟨(simultaneous_edges_fixed_order 255 0).1 (by decide) (by decide),
   (simultaneous_edges_fixed_order 255 0).2.1 (by decide) (by decide),
   (simultaneous_edges_fixed_order 255 0).2.2 (by decide) (by decide)⟩

-- --- Main-loop heartbeat lemmas ---

lemma runLoop_succ (n c : Nat) (out : List Nat) :
    runLoop (n + 1) (c, out) =
      runLoop n ((loopIter c).1, out ++ (loopIter c).2) := rfl

lemma runLoop_out (n : Nat) : ∀ c out, runLoop n (c, out) =
    ((runLoop n (c, [])).1, out ++ (runLoop n (c, [])).2) := by
  induction n with
  | zero => intro c out; simp [runLoop]
  | succ n ih =>
      intro c out
      rw [runLoop_succ, runLoop_succ, ih ((loopIter c).1) (out ++ (loopIter c).2),
        ih ((loopIter c).1) ([] ++ (loopIter c).2)]
      simp

lemma runLoop_add (m n : Nat) : ∀ st, runLoop (m + n) st = runLoop n (runLoop m st) := by
  induction m with
  | zero => intro st; rw [Nat.zero_add]; rfl
  | succ m ih =>
      intro st
      obtain ⟨c, out⟩ := st
      rw [Nat.succ_add, runLoop_succ, runLoop_succ, ih]

lemma runLoop_quiet : ∀ n c out, c + n < 1000 →
    runLoop n (c, out) = (c + n, out) := by
  intro n
  induction n with
  | zero => intro c out _; rfl
  | succ n ih =>
      intro c out h
      have hlt : c + 1 < 1000 := by omega
      have hIter : loopIter c = (c + 1, []) := by
        unfold loopIter
        rw [Nat.mod_eq_of_lt (by omega : c + 1 < 65536), if_neg (by omega)]
      rw [runLoop_succ, hIter]
      simp only [List.append_nil]
      rw [ih (c + 1) out (by omega)]
      congr 1
      omega

/-- C10: starting from a zero heartbeat counter, 1000 main-loop
iterations enqueue exactly one `('H', '\n')` pair and leave the counter
at zero again, whatever bytes were already emitted; consequently the
pattern repeats: `1000 * k` iterations from a zero counter emit exactly
`k` heartbeat pairs. -/
theorem heartbeat_every_1000_iterations :
    runLoop 1000 (0, []) = (0, [CMD_HEARTBEAT, NL])
    ∧ (∀ out, runLoop 1000 (0, out) = (0, out ++ [CMD_HEARTBEAT, NL]))
    ∧ (∀ k, runLoop (1000 * k) (0, []) =
        (0, List.flatten (List.replicate k [CMD_HEARTBEAT, NL]))) := by
  have base : runLoop 1000 (0, []) = (0, [CMD_HEARTBEAT, NL]) := by
    rw [show (1000 : Nat) = 999 + 1 from rfl, runLoop_add,
      runLoop_quiet 999 0 [] (by omega)]
    decide
  have step : ∀ out, runLoop 1000 (0, out) = (0, out ++ [CMD_HEARTBEAT, NL]) := by
    intro out
    rw [runLoop_out, base]
  refine ⟨base, step, ?_⟩
  intro k
  induction k with
  | zero => rfl
  | succ k ih =>
      have h1 : 1000 * (k + 1) = 1000 + 1000 * k := by ring
      rw [h1, runLoop_add, base, runLoop_out, ih]
      simp [List.replicate_succ]


-- --- Transmit-queue lemmas ---

lemma txWrite_buf (d : Nat) (s : Tx) :
    (txWrite d s).buf = setBuf s.buf s.head d := rfl

lemma txWrite_head (d : Nat) (s : Tx) :
    (txWrite d s).head = (s.head + 1) % UART_BUFFER_SIZE := rfl

lemma txWrite_tail (d : Nat) (s : Tx) : (txWrite d s).tail = s.tail := rfl

lemma txWrite_transmitting (d : Nat) (s : Tx) :
    (txWrite d s).transmitting = s.transmitting := rfl

lemma txWrite_inFlight (d : Nat) (s : Tx) :
    (txWrite d s).inFlight = s.inFlight := rfl

lemma txWrite_output (d : Nat) (s : Tx) : (txWrite d s).output = s.output := rfl

lemma txWrite_enqueued (d : Nat) (s : Tx) :
    (txWrite d s).enqueued = s.enqueued ++ [d] := rfl

lemma pendingList_congr (s s' : Tx) (hb : s'.buf = s.buf)
    (hh : s'.head = s.head) (ht : s'.tail = s.tail) :
    pendingList s' = pendingList s := by
  unfold pendingList pendingLen
  rw [hb, hh, ht]

lemma pendingList_empty_iff (s : Tx) (hh : s.head < UART_BUFFER_SIZE)
    (ht : s.tail < UART_BUFFER_SIZE) :
    pendingList s = [] ↔ s.head = s.tail := by
  unfold UART_BUFFER_SIZE at hh ht
  unfold pendingList pendingLen UART_BUFFER_SIZE
  rw [List.map_eq_nil_iff, List.range_eq_nil]
  omega

lemma pendingList_txWrite (s : Tx) (d : Nat) (hh : s.head < UART_BUFFER_SIZE)
    (ht : s.tail < UART_BUFFER_SIZE) (hnf : ¬ txFull s) :
    pendingList (txWrite d s) = pendingList s ++ [d] := by
  unfold txFull UART_BUFFER_SIZE at hnf
  unfold UART_BUFFER_SIZE at hh ht
  have hlen : pendingLen (txWrite d s) = pendingLen s + 1 := by
    simp only [pendingLen, txWrite_head, txWrite_tail, UART_BUFFER_SIZE]
    omega
  have hidx : (s.tail + pendingLen s) % UART_BUFFER_SIZE = s.head := by
    simp only [pendingLen, UART_BUFFER_SIZE]
    omega
  unfold pendingList
  rw [hlen, List.range_succ, List.map_append]
  congr 1
  · apply List.map_congr_left
    intro j hj
    rw [List.mem_range] at hj
    simp only [pendingLen, UART_BUFFER_SIZE] at hj
    simp only [txWrite_buf, txWrite_tail, setBuf, UART_BUFFER_SIZE]
    rw [if_neg]
    omega
  · simp only [List.map_cons, List.map_nil, txWrite_buf, txWrite_tail, setBuf, hidx]
    simp

lemma pendingList_advance (s s' : Tx) (hb : s'.buf = s.buf) (hh' : s'.head = s.head)
    (ht' : s'.tail = (s.tail + 1) % UART_BUFFER_SIZE)
    (hh : s.head < UART_BUFFER_SIZE) (ht : s.tail < UART_BUFFER_SIZE)
    (hne : s.head ≠ s.tail) :
    pendingList s = s.buf s.tail :: pendingList s' := by
  unfold UART_BUFFER_SIZE at hh ht
  have hlen : pendingLen s = pendingLen s' + 1 := by
    simp only [pendingLen, hh', ht', UART_BUFFER_SIZE]
    omega
  unfold pendingList
  rw [hlen, List.range_succ_eq_map, List.map_cons]
  congr 1
  · rw [Nat.add_zero]
    congr 1
    simp only [UART_BUFFER_SIZE]
    omega
  · rw [List.map_map]
    apply List.map_congr_left
    intro j hj
    rw [List.mem_range] at hj
    simp only [Function.comp_apply, hb, ht']
    congr 1
    simp only [UART_BUFFER_SIZE]
    omega

lemma txInv_init : TxInv txInit := by
  refine ⟨by norm_num [txInit, UART_BUFFER_SIZE],
    by norm_num [txInit, UART_BUFFER_SIZE], rfl, ?_⟩
  simp [txInit, pendingList, pendingLen, UART_BUFFER_SIZE]

lemma txInv_txWrite (s : Tx) (d : Nat) (h : TxInv s) (hnf : ¬ txFull s) :
    TxInv (txWrite d s) := by
  obtain ⟨hh, ht, htr, hout⟩ := h
  refine ⟨?_, ?_, ?_, ?_⟩
  · rw [txWrite_head]
    exact Nat.mod_lt _ (by norm_num [UART_BUFFER_SIZE])
  · rw [txWrite_tail]; exact ht
  · rw [txWrite_transmitting, txWrite_inFlight]; exact htr
  · rw [txWrite_output, txWrite_enqueued, pendingList_txWrite s d hh ht hnf,
      ← List.append_assoc, hout]

lemma txInv_start (s : Tx) (h : TxInv s) : TxInv (uart_start_if_idle s) := by
  obtain ⟨hh, ht, htr, hout⟩ := h
  unfold uart_start_if_idle
  split
  · next hc =>
      refine ⟨hh, ?_, rfl, ?_⟩
      · exact Nat.mod_lt _ (by norm_num [UART_BUFFER_SIZE])
      · show (s.output ++ [s.buf s.tail]) ++ pendingList (txStartFire s) = s.enqueued
        rw [List.append_assoc, List.singleton_append,
          ← pendingList_advance s (txStartFire s) rfl rfl rfl hh ht hc.2]
        exact hout
  · next => exact ⟨hh, ht, htr, hout⟩

lemma txInv_enq (s : Tx) (d : Nat) (h : TxInv s) (hnf : ¬ txFull s) :
    TxInv (uart_send_char d s) :=
  txInv_start _ (txInv_txWrite s d h hnf)

lemma txInv_isr (s : Tx) (h : TxInv s) (hif : s.inFlight = true) :
    TxInv (usart_tx_isr s) := by
  obtain ⟨hh, ht, htr, hout⟩ := h
  unfold usart_tx_isr
  split
  · next hc =>
      refine ⟨hh, ?_, ?_, ?_⟩
      · exact Nat.mod_lt _ (by norm_num [UART_BUFFER_SIZE])
      · show s.transmitting = true
        rw [htr, hif]
      · show (s.output ++ [s.buf s.tail]) ++ pendingList (txIsrCont s) = s.enqueued
        rw [List.append_assoc, List.singleton_append,
          ← pendingList_advance s (txIsrCont s) rfl rfl rfl hh ht hc]
        exact hout
  · next =>
      refine ⟨hh, ht, rfl, ?_⟩
      show s.output ++ pendingList (txIsrIdle s) = s.enqueued
      rw [pendingList_congr s (txIsrIdle s) rfl rfl rfl]
      exact hout

lemma txInv_reachable (s : Tx) (h : TxReachable s) : TxInv s := by
  unfold TxReachable at h
  induction h with
  | refl => exact txInv_init
  | tail hsteps hstep ih =>
      cases hstep
      all_goals rename_i harg
      · rename_i d
        exact txInv_enq _ d ih harg
      · exact txInv_isr _ ih harg

/-- C2: in every state reachable by enqueue and completion-interrupt
steps, the bytes handed to the hardware channel (`UDR0`), followed by
the bytes still sitting in the circular buffer, are exactly the
successfully enqueued bytes in order — so the handed-over sequence is
the enqueued sequence with no reordering, no duplication and no loss
(global FIFO across all producers). -/
theorem fifo_order_preserved (s : Tx) (h : TxReachable s) :
    s.output ++ pendingList s = s.enqueued :=
  (txInv_reachable s h).2.2.2

/-- Witness for the FIFO theorem: the state after enqueueing byte 72
from the initial state is reachable and satisfies the conclusion. -/
theorem fifo_order_preserved_witness :
    (uart_send_char 72 txInit).output ++ pendingList (uart_send_char 72 txInit) =
      (uart_send_char 72 txInit).enqueued :=
  fifo_order_preserved _
    (Relation.ReflTransGen.single (TxStep.enq 72 txInit (by decide)))

/-- C3: in every reachable state, the queue is logically empty (no byte
stored in the buffer and no byte in flight) if and only if
`head = tail` and the `transmitting` flag is clear; moreover the
completion interrupt, when `head ≠ tail`, hands the byte at `tail` to
the channel and advances `tail` modulo the capacity without touching the
flag, and when `head = tail` it clears the flag and leaves `tail` and
the output unchanged. -/
theorem queue_empty_iff_idle (s : Tx) (h : TxReachable s) :
    ((pendingList s = [] ∧ s.inFlight = false) ↔
      (s.head = s.tail ∧ s.transmitting = false))
    ∧ (s.head ≠ s.tail →
        (usart_tx_isr s).output = s.output ++ [s.buf s.tail] ∧
        (usart_tx_isr s).tail = (s.tail + 1) % UART_BUFFER_SIZE ∧
        (usart_tx_isr s).transmitting = s.transmitting)
    ∧ (s.head = s.tail →
        (usart_tx_isr s).transmitting = false ∧
        (usart_tx_isr s).tail = s.tail ∧
        (usart_tx_isr s).output = s.output) := by
  obtain ⟨hh, ht, htr, _⟩ := txInv_reachable s h
  refine ⟨?_, ?_, ?_⟩
  · rw [pendingList_empty_iff s hh ht, htr]
  · intro hne
    unfold usart_tx_isr
    rw [if_pos hne]
    exact ⟨rfl, rfl, rfl⟩
  · intro heq
    unfold usart_tx_isr
    rw [if_neg (by simp [heq])]
    exact ⟨rfl, rfl, rfl⟩

/-- Witness for the queue-emptiness theorem: the initial state is
reachable, its queue is logically empty, its indices agree and its flag
is clear, and both completion-interrupt clauses hold there. -/
theorem queue_empty_iff_idle_witness :
    ((pendingList txInit = [] ∧ txInit.inFlight = false) ↔
      (txInit.head = txInit.tail ∧ txInit.transmitting = false))
    ∧ (txInit.head ≠ txInit.tail →
        (usart_tx_isr txInit).output = txInit.output ++ [txInit.buf txInit.tail] ∧
        (usart_tx_isr txInit).tail = (txInit.tail + 1) % UART_BUFFER_SIZE ∧
        (usart_tx_isr txInit).transmitting = txInit.transmitting)
    ∧ (txInit.head = txInit.tail →
        (usart_tx_isr txInit).transmitting = false ∧
        (usart_tx_isr txInit).tail = txInit.tail ∧
        (usart_tx_isr txInit).output = txInit.output) :=
  queue_empty_iff_idle txInit Relation.ReflTransGen.refl

/-- C6: on a non-full queue, `uart_send_char` writes the byte at the
head slot, advances `head` modulo the capacity and records the byte as
enqueued; then it kicks off transmission exactly when the channel is
idle — setting `transmitting`, handing the byte at the tail slot of the
just-written buffer to the channel and advancing `tail` — and in
particular, after the queue has drained to empty (`transmitting`
cleared, `head = tail`), the next enqueue hands its own byte to the
channel, restarting transmission; when the channel is busy it changes
neither `tail`, the output, nor the flag. -/
theorem enqueue_writes_and_kicks (s : Tx) (d : Nat) (hnf : ¬ txFull s) :
    (uart_send_char d s).buf s.head = d
    ∧ (uart_send_char d s).head = (s.head + 1) % UART_BUFFER_SIZE
    ∧ (uart_send_char d s).enqueued = s.enqueued ++ [d]
    ∧ (s.transmitting = false →
        (uart_send_char d s).transmitting = true ∧
        (uart_send_char d s).output = s.output ++ [(txWrite d s).buf s.tail] ∧
        (uart_send_char d s).tail = (s.tail + 1) % UART_BUFFER_SIZE)
    ∧ (s.transmitting = true →
        (uart_send_char d s).transmitting = true ∧
        (uart_send_char d s).output = s.output ∧
        (uart_send_char d s).tail = s.tail)
    ∧ (s.transmitting = false → s.head = s.tail →
        (uart_send_char d s).output = s.output ++ [d] ∧
        (uart_send_char d s).transmitting = true) := by
  have hbuf : ∀ t : Tx, (uart_start_if_idle t).buf = t.buf := by
    intro t; unfold uart_start_if_idle; split <;> rfl
  have hhead : ∀ t : Tx, (uart_start_if_idle t).head = t.head := by
    intro t; unfold uart_start_if_idle; split <;> rfl
  have henq : ∀ t : Tx, (uart_start_if_idle t).enqueued = t.enqueued := by
    intro t; unfold uart_start_if_idle; split <;> rfl
  have hne : (txWrite d s).head ≠ (txWrite d s).tail := by
    rw [txWrite_head, txWrite_tail]
    exact hnf
  refine ⟨?_, ?_, ?_, ?_, ?_, ?_⟩
  · rw [uart_send_char, hbuf, txWrite_buf]
    simp [setBuf]
  · rw [uart_send_char, hhead, txWrite_head]
  · rw [uart_send_char, henq, txWrite_enqueued]
  · intro hidle
    have hc : (txWrite d s).transmitting = false ∧
        (txWrite d s).head ≠ (txWrite d s).tail := by
      rw [txWrite_transmitting]
      exact ⟨hidle, hne⟩
    rw [uart_send_char, uart_start_if_idle, if_pos hc]
    exact ⟨rfl, rfl, rfl⟩
  · intro hbusy
    have hc : ¬ ((txWrite d s).transmitting = false ∧
        (txWrite d s).head ≠ (txWrite d s).tail) := by
      rw [txWrite_transmitting, hbusy]
      simp
    rw [uart_send_char, uart_start_if_idle, if_neg hc]
    exact ⟨by rw [txWrite_transmitting, hbusy], rfl, rfl⟩
  · intro hidle heq
    have hc : (txWrite d s).transmitting = false ∧
        (txWrite d s).head ≠ (txWrite d s).tail := by
      rw [txWrite_transmitting]
      exact ⟨hidle, hne⟩
    rw [uart_send_char, uart_start_if_idle, if_pos hc]
    refine ⟨?_, rfl⟩
    show (txWrite d s).output ++ [(txWrite d s).buf (txWrite d s).tail] =
      s.output ++ [d]
    rw [txWrite_output, txWrite_tail, txWrite_buf, setBuf]
    rw [if_pos heq.symm]

/-- Witness for the enqueue theorem: enqueueing byte 72 into the (empty,
idle, non-full) initial state writes 72 at the head slot and hands 72
to the channel, restarting transmission. -/
theorem enqueue_writes_and_kicks_witness :
    (uart_send_char 72 txInit).buf txInit.head = 72 ∧
    (uart_send_char 72 txInit).output = txInit.output ++ [72] ∧
    (uart_send_char 72 txInit).transmitting = true :=
  ⟨(enqueue_writes_and_kicks txInit 72 (by decide)).1,
   ((enqueue_writes_and_kicks txInit 72 (by decide)).2.2.2.2.2 rfl rfl).1,
   ((enqueue_writes_and_kicks txInit 72 (by decide)).2.2.2.2.2 rfl rfl).2⟩

/-- C7 counterexample: the claim says an enqueue never changes `tail`,
but enqueueing byte 72 from the initial (idle, empty) state kicks off
transmission inside `uart_start_if_idle`, advancing `tail` from 0 to 1
in producer context. -/
theorem producer_advances_tail_counterexample :
    (uart_send_char 72 txInit).tail = 1 ∧ txInit.tail = 0 ∧
    (uart_send_char 72 txInit).tail ≠ txInit.tail := by
  decide

/-- C7 amended: an enqueue leaves `tail` unchanged whenever the channel
is already transmitting; when the channel is idle the enqueue itself
starts transmission and advances `tail` by exactly one slot (the
completion handler is otherwise the only code advancing `tail`). -/
theorem enqueue_tail_frame (s : Tx) (d : Nat) (hnf : ¬ txFull s) :
    (uart_send_char d s).tail =
      if s.transmitting = true then s.tail
      else (s.tail + 1) % UART_BUFFER_SIZE := by
  have hne : (txWrite d s).head ≠ (txWrite d s).tail := by
    rw [txWrite_head, txWrite_tail]
    exact hnf
  by_cases hb : s.transmitting = true
  · rw [if_pos hb, uart_send_char, uart_start_if_idle,
      if_neg (by rw [txWrite_transmitting, hb]; simp)]
    rfl
  · rw [if_neg hb, uart_send_char, uart_start_if_idle,
      if_pos ⟨by rw [txWrite_transmitting]; simpa using hb, hne⟩]
    rfl

/-- Witness for the amended C7 theorem: enqueueing into the busy state
leaves `tail` at 0, matching the busy branch of the conclusion. -/
theorem enqueue_tail_frame_witness :
    (uart_send_char 72 txBusyInit).tail =
      if txBusyInit.transmitting = true then txBusyInit.tail
      else (txBusyInit.tail + 1) % UART_BUFFER_SIZE :=
  enqueue_tail_frame txBusyInit 72 (by decide)

/-- C4: `uart_send_char` busy-waits exactly while advancing `head` would
collide with `tail` (the full condition), and an enqueue on a non-full
queue never modifies any slot still holding a pending (not yet handed
over) byte; concretely, enqueueing a long string into the busy 32-slot
queue with no completion events succeeds 31 times, the 32nd call finds
the queue full and blocks, and a single drain (completion interrupt)
makes the queue non-full again so the blocked call can proceed. -/
theorem enqueue_blocks_when_full (s : Tx) (d : Nat) :
    (txFull s ↔ ¬ enqEnabled s)
    ∧ (¬ txFull s → s.head < UART_BUFFER_SIZE → s.tail < UART_BUFFER_SIZE →
        ∀ j, j < pendingLen s →
          (uart_send_char d s).buf ((s.tail + j) % UART_BUFFER_SIZE) =
            s.buf ((s.tail + j) % UART_BUFFER_SIZE))
    ∧ (∀ k, k < 31 → ¬ txFull (enqN k txBusyInit))
    ∧ txFull (enqN 31 txBusyInit)
    ∧ ¬ txFull (usart_tx_isr (enqN 31 txBusyInit)) := by
  refine ⟨(@not_not (txFull s)).symm, ?_, by decide, by decide, by decide⟩
  intro hnf hh ht j hj
  have hbuf : ∀ t : Tx, (uart_start_if_idle t).buf = t.buf := by
    intro t; unfold uart_start_if_idle; split <;> rfl
  rw [uart_send_char, hbuf, txWrite_buf, setBuf]
  rw [if_neg]
  unfold txFull UART_BUFFER_SIZE at hnf
  unfold UART_BUFFER_SIZE at hh ht
  unfold pendingLen UART_BUFFER_SIZE at hj
  unfold UART_BUFFER_SIZE
  omega

/-- Witness for the blocking theorem: after one enqueue into the busy
state the single pending slot survives a further enqueue untouched, and
the queue after 31 enqueues is full. -/
theorem enqueue_blocks_when_full_witness :
    txFull (enqN 31 txBusyInit) ∧
    (uart_send_char 66 (enqN 1 txBusyInit)).buf
        (((enqN 1 txBusyInit).tail + 0) % UART_BUFFER_SIZE) =
      (enqN 1 txBusyInit).buf (((enqN 1 txBusyInit).tail + 0) % UART_BUFFER_SIZE) :=
  ⟨(enqueue_blocks_when_full txBusyInit 0).2.2.2.1,
   (enqueue_blocks_when_full (enqN 1 txBusyInit) 66).2.1
     (by decide) (by decide) (by decide) 0 (by decide)⟩
